import Mathlib

/-!
Shallow embedding of the `simple-logmate` logging library
(`src/utils.js` and `src/src/logger.js`) together with proofs of the
specification claims.

JavaScript strings are Lean `String`s, JS numbers that occur here are `Nat`,
and the asynchronous drain of the file sink is embedded as a small-step
event machine: synchronous `logToFile` calls run to the first `await`, and
each completion of a pending filesystem operation (append / stat / rename)
is a separate event that resumes the suspended coroutine.
-/

/-! ### Formatter (`src/utils.js`, function `format`) -/

/-- `\w` character class of the JS regex `/{(\w+)}/g`: ASCII letters, digits
and underscore. -/
def isWordChar (c : Char) : Bool :=
  c.isAlphanum || c == '_'

/-- `data.hasOwnProperty(key) ? data[key] : ''` for the char-list `name` of a
placeholder; the data object is an association list. -/
def lookupOr (data : List (String × String)) (name : List Char) : List Char :=
  match List.lookup (String.mk name) data with
  | some v => v.data
  | none => []

/-- One left-to-right pass of `template.replace(/{(\w+)}/g, ...)`.
The second argument is `none` while scanning literal text and `some acc`
after an unmatched `{` whose following word characters so far are `acc`.
When the potential placeholder aborts (end of input, a second `{`, or a
non-word non-`}` character) the scanned characters are emitted literally,
exactly as the regex engine leaves them after a failed match. -/
def formatGo (data : List (String × String)) : List Char → Option (List Char) → List Char
  | [], none => []
  | [], some acc => '{' :: acc
  | c :: rest, none =>
      if c = '{' then formatGo data rest (some [])
      else c :: formatGo data rest none
  | c :: rest, some acc =>
      if c = '}' then
        if acc.isEmpty then '{' :: '}' :: formatGo data rest none
        else lookupOr data acc ++ formatGo data rest none
      else if isWordChar c then formatGo data rest (some (acc ++ [c]))
      else if c = '{' then '{' :: (acc ++ formatGo data rest (some []))
      else '{' :: (acc ++ c :: formatGo data rest none)

/-- `format(template, data)` from `src/utils.js`. -/
def format (template : String) (data : List (String × String)) : String :=
  String.mk (formatGo data template.data none)

/-! ### Level policy (`Logger.shouldLog`) -/

/-- The ordered level table `['debug', 'info', 'warn', 'error']`. -/
def levels : List String := ["debug", "info", "warn", "error"]

/-- JS `Array.prototype.indexOf`: index of the first occurrence, `-1` if
absent. -/
def jsIndexOfAux (x : String) : List String → Int
  | [] => -1
  | y :: ys =>
      if y = x then 0
      else
        let r := jsIndexOfAux x ys
        if r = -1 then -1 else r + 1

/-- `xs.indexOf(x)`. -/
def jsIndexOf (xs : List String) (x : String) : Int :=
  jsIndexOfAux x xs

/-! ### Console colors and message arguments -/

/-- The ANSI color table from the top of `logger.js`. -/
def colors : List (String × String) :=
  [("debug", "\x1b[36m"), ("info", "\x1b[32m"), ("warn", "\x1b[33m"),
   ("error", "\x1b[31m"), ("reset", "\x1b[0m")]

/-- `colors[level]` used in string concatenation: a missing key is JS
`undefined`, which coerces to the string `"undefined"`. -/
def colorOf (level : String) : String :=
  (colors.lookup level).getD "undefined"

/-- `level === 'error' ? 'error' : level === 'warn' ? 'warn' : 'log'`. -/
def consoleMethod (level : String) : String :=
  if level = "error" then "error" else if level = "warn" then "warn" else "log"

/-- A message argument of `log(level, ...args)`: either a plain value
(already rendered by JS `String(arg)`) or an `Error` instance with its
`name`, `message` and `stack`. -/
inductive Arg where
  | str (s : String)
  | err (name message stack : String)
deriving DecidableEq

/-- The per-argument stringification in `Logger.log`:
plain values via `String(arg)`, errors as
`` `${name}: ${message}\n${stack}` ``. -/
def stringifyArg : Arg → String
  | Arg.str s => s
  | Arg.err name message stack => name ++ ": " ++ message ++ "\n" ++ stack

/-- One write to the console transport. `formatted` is the primary
colorized line, `stackLabel`/`errObject` are the per-error extra writes in
`Logger.log`, and `raw` covers the `console.error` diagnostics issued by
`writeLogs`/`checkFileSize`. -/
inductive CWrite where
  | formatted (method text : String)
  | stackLabel (method text : String)
  | errObject (method name message stack : String)
  | raw (method text : String)
deriving DecidableEq

/-! ### Logger state -/

/-- Suspension points of the `writeLogs` coroutine: awaiting
`fs.promises.appendFile`, awaiting `fs.promises.stat` inside
`checkFileSize`, or awaiting `fs.promises.rename`. -/
inductive DrainPC where
  | appending (message : String)
  | statting
  | renaming (target : String)
deriving DecidableEq

/-- State of one `Logger` instance.  The first six fields are the
constructor-initialized configuration and the queue/flag pair; the last
five are the observable environment (suspended drain coroutines, current
log-file lines, rotated archives, console output, and whether the
constructor created the log directory). -/
structure Logger where
  level : String
  format : String
  filePath : Option String
  maxFileSize : Nat
  transports : List String
  httpRequest : Bool
  logQueue : List String
  isWriting : Bool
  drains : List DrainPC
  file : List String
  archived : List (String × List String)
  consoleOut : List CWrite
  dirCreated : Bool
deriving DecidableEq

/-- `Logger.shouldLog`:
`levels.indexOf(level) >= levels.indexOf(this.level)`. -/
def shouldLog (l : Logger) (level : String) : Bool :=
  decide (jsIndexOf levels level ≥ jsIndexOf levels l.level)

/-- `this.filePath` as a JS truthiness test (`null` and `''` are falsy). -/
def filePathTruthy (l : Logger) : Bool :=
  match l.filePath with
  | some p => p != ""
  | none => false

/-! ### File sink (`logToFile`, `writeLogs`, `checkFileSize`) -/

/-- Byte size of the log file after the drain has appended the given lines:
each append wrote `message + '\n'`. -/
def fileSize (lines : List String) : Nat :=
  (lines.map (fun s => s.utf8ByteSize + 1)).sum

/-- `new Date().toISOString().replace(/[:.]/g, '-')`. -/
def isoSanitize (iso : String) : String :=
  String.mk (iso.data.map (fun c => if c = ':' ∨ c = '.' then '-' else c))

/-- Second stage of `filePath.replace(/(\.\w+)?$/, `-${timestamp}$1`)`,
applied to the word-character suffix `w` of the reversed path and the
remaining reversed characters `r`.  The regex matches a final `.ext`
(nonempty word-character extension) if one exists, otherwise the empty
string at the end of the path. -/
def rotAux (filePath ts : String) (w r : List Char) : String :=
  match r with
  | '.' :: stemRev =>
      if w.isEmpty then filePath ++ "-" ++ ts
      else String.mk stemRev.reverse ++ "-" ++ ts ++ "." ++ String.mk w.reverse
  | _ => filePath ++ "-" ++ ts

/-- The rotated file path computed in `checkFileSize`. -/
def rotatedFilePath (filePath ts : String) : String :=
  rotAux filePath ts (filePath.data.reverse.takeWhile isWordChar)
    (filePath.data.reverse.dropWhile isWordChar)

/-- Head of the `while (this.logQueue.length > 0)` loop in `writeLogs`:
either exit the loop and run the `finally` (clear `isWriting`), or shift
the next message and suspend on its `appendFile`.  `rest` is the list of
other suspended coroutines (empty in every reachable state). -/
def writeLogsLoop (l : Logger) (rest : List DrainPC) : Logger :=
  match l.logQueue with
  | [] => { l with isWriting := false, drains := rest }
  | m :: q => { l with logQueue := q, drains := DrainPC.appending m :: rest }

/-- `Logger.logToFile`: push the message and start `writeLogs` only when no
drain is running. -/
def logToFile (message : String) (l : Logger) : Logger :=
  let l1 : Logger := { l with logQueue := l.logQueue ++ [message] }
  if l1.isWriting then l1
  else writeLogsLoop { l1 with isWriting := true } l1.drains

/-- Result of the awaited `fs.promises.appendFile`; `ok = false` is a write
failure (the promise rejects). -/
def appendFileE (ok : Bool) : Except String Unit :=
  if ok then Except.ok () else Except.error "EIO"

/-- Result of the awaited `fs.promises.stat`. -/
def statE (ok : Bool) (size : Nat) : Except String Nat :=
  if ok then Except.ok size else Except.error "ENOENT"

/-- Result of the awaited `fs.promises.rename`. -/
def renameE (ok : Bool) : Except String Unit :=
  if ok then Except.ok () else Except.error "EPERM"

/-- The `try { ... } catch (error) { ... }` of `writeLogs`: a rejected
await inside the try block is diverted to the handler instead of
propagating to the caller. -/
def tryCatchE (body : Except String Logger) (handler : String → Logger) : Except String Logger :=
  match body with
  | Except.ok l => Except.ok l
  | Except.error e => Except.ok (handler e)

/-- `checkFileSize` resumed after its `stat` await: its own
`try/catch` swallows the error; on success the file is rotated when
`stats.size > this.maxFileSize`, else control returns to the
`writeLogs` loop. -/
def checkFileSizeStat (res : Except String Nat) (iso : String) (l : Logger)
    (rest : List DrainPC) : Logger :=
  match res with
  | Except.ok size =>
      if size > l.maxFileSize then
        { l with drains :=
            DrainPC.renaming (rotatedFilePath (l.filePath.getD "") (isoSanitize iso)) :: rest }
      else writeLogsLoop l rest
  | Except.error _ =>
      writeLogsLoop
        { l with consoleOut := l.consoleOut ++ [CWrite.raw "error" "Error during log rotation:"] }
        rest

/-- `checkFileSize` resumed after its `rename` await. -/
def checkFileSizeRename (res : Except String Unit) (target : String) (l : Logger)
    (rest : List DrainPC) : Logger :=
  match res with
  | Except.ok _ =>
      writeLogsLoop { l with archived := l.archived ++ [(target, l.file)], file := [] } rest
  | Except.error _ =>
      writeLogsLoop
        { l with consoleOut := l.consoleOut ++ [CWrite.raw "error" "Error during log rotation:"] }
        rest

/-- Resume the suspended `writeLogs` coroutine on completion of its pending
filesystem operation.  `ok` is the outcome chosen by the environment, `iso`
the value of `new Date().toISOString()` at that moment.  An
`Except.error` result would be an exception escaping `writeLogs`
(an unhandled promise rejection); the no-throw claim proves this never
happens. -/
def resume (ok : Bool) (iso : String) (l : Logger) : Except String Logger :=
  match l.drains with
  | [] => Except.ok l
  | DrainPC.appending m :: rest =>
      tryCatchE
        ((appendFileE ok).bind (fun _ =>
          Except.ok { l with file := l.file ++ [m], drains := DrainPC.statting :: rest }))
        (fun _ =>
          { l with
            consoleOut := l.consoleOut ++ [CWrite.raw "error" "Error writing to log file:"],
            isWriting := false, drains := rest })
  | DrainPC.statting :: rest =>
      Except.ok (checkFileSizeStat (statE ok (fileSize l.file)) iso l rest)
  | DrainPC.renaming target :: rest =>
      Except.ok (checkFileSizeRename (renameE ok) target l rest)

/-- `resume` with the (never-taken) uncaught-exception branch mapped to the
unchanged state, so that event traces are total functions. -/
def resumeRun (ok : Bool) (iso : String) (l : Logger) : Logger :=
  match resume ok iso l with
  | Except.ok l2 => l2
  | Except.error _ => l

/-! ### Dispatcher (`Logger.log` and the convenience wrappers) -/

/-- The closure of `args.forEach` inside the console branch of
`Logger.log`: per `Error` argument, a colorized `'Stack trace:'` label
followed by the error object itself. -/
def logErrorArg (method level : String) (l : Logger) (a : Arg) : Logger :=
  match a with
  | Arg.err name message stack =>
      { l with consoleOut := l.consoleOut ++
          [CWrite.stackLabel method (colorOf level ++ "Stack trace:" ++ colorOf "reset"),
           CWrite.errObject method name message stack] }
  | Arg.str _ => l

/-- Body of `this.transports.forEach(transport => ...)` in `Logger.log`. -/
def logTransport (level formattedMessage : String) (args : List Arg)
    (l : Logger) (transport : String) : Logger :=
  if transport = "console" then
    let method := consoleMethod level
    let l1 : Logger := { l with consoleOut := l.consoleOut ++
        [CWrite.formatted method (colorOf level ++ formattedMessage ++ colorOf "reset")] }
    args.foldl (logErrorArg method level) l1
  else if transport = "file" then
    if filePathTruthy l then logToFile formattedMessage l else l
  else l

/-- `Logger.log(level, ...args)`.  `ts` is the value of
`getLocalTimestamp()` (wall-clock input of the call). -/
def log (ts : String) (l : Logger) (level : String) (args : List Arg) : Logger :=
  if shouldLog l level then
    let processedMessage := String.intercalate " " (args.map stringifyArg)
    let formattedMessage := format l.format
      [("timestamp", ts), ("level", level), ("message", processedMessage)]
    l.transports.foldl (logTransport level formattedMessage args) l
  else l

/-- `info(...args) { this.log('info', ...args); }` -/
def Logger.info (ts : String) (l : Logger) (args : List Arg) : Logger :=
  log ts l "info" args

/-- `warn(...args) { this.log('warn', ...args); }` -/
def Logger.warn (ts : String) (l : Logger) (args : List Arg) : Logger :=
  log ts l "warn" args

/-- `error(...args) { this.log('error', ...args); }` -/
def Logger.error (ts : String) (l : Logger) (args : List Arg) : Logger :=
  log ts l "error" args

/-- `debug(...args) { this.log('debug', ...args); }` -/
def Logger.debug (ts : String) (l : Logger) (args : List Arg) : Logger :=
  log ts l "debug" args

/-! ### Constructor -/

/-- The `options` object passed to `new Logger(options)`; `none` is an
absent property. -/
structure LoggerOptions where
  level : Option String := none
  format : Option String := none
  filePath : Option String := none
  maxFileSize : Option Nat := none
  transports : Option (List String) := none
  httpRequest : Option Bool := none
deriving DecidableEq

/-- JS `value || dflt` for a string option (`undefined` and `''` are
falsy). -/
def orDefaultStr (v : Option String) (dflt : String) : String :=
  match v with
  | some s => if s = "" then dflt else s
  | none => dflt

/-- JS `value || dflt` for a numeric option (`undefined` and `0` are
falsy). -/
def orDefaultNat (v : Option Nat) (dflt : Nat) : Nat :=
  match v with
  | some n => if n = 0 then dflt else n
  | none => dflt

/-- `options.filePath || null`. -/
def optFilePath (v : Option String) : Option String :=
  match v with
  | some s => if s = "" then none else some s
  | none => none

/-- The `Logger` constructor.  It contains no `throw`; an `Except.error`
result would model an exception surfaced to the constructing code. -/
def construct (options : LoggerOptions) : Except String Logger :=
  let level := orDefaultStr options.level "info"
  let fmt := orDefaultStr options.format "[{timestamp}] {level}: {message}"
  let filePath := optFilePath options.filePath
  let maxFileSize := orDefaultNat options.maxFileSize (1024 * 1024)
  let transports := options.transports.getD ["console"]
  let httpRequest := options.httpRequest.getD false
  Except.ok
    { level := level, format := fmt, filePath := filePath, maxFileSize := maxFileSize,
      transports := transports, httpRequest := httpRequest,
      logQueue := [], isWriting := false, drains := [], file := [], archived := [],
      consoleOut := [],
      dirCreated :=
        (match filePath with | some p => p != "" | none => false) &&
          transports.contains "file" }

/-! ### Event traces over one logger instance -/

/-- An event of the single-threaded event loop: a synchronous
`logToFile` call, or completion of the pending filesystem operation with
outcome `ok` and current ISO timestamp `iso`. -/
inductive Ev where
  | enq (message : String)
  | ioDone (ok : Bool) (iso : String)
deriving DecidableEq

/-- One event-loop step. -/
def stepEv (l : Logger) (e : Ev) : Logger :=
  match e with
  | Ev.enq m => logToFile m l
  | Ev.ioDone ok iso => resumeRun ok iso l

/-- Run a trace of events. -/
def run (l : Logger) (evs : List Ev) : Logger :=
  evs.foldl stepEv l

/-- The single-writer invariant of the file sink: the `isWriting` flag is
set exactly while a drain coroutine exists, and there is never more than
one drain. -/
def SinkInv (l : Logger) : Prop :=
  (l.isWriting = true ↔ l.drains ≠ []) ∧ l.drains.length ≤ 1

instance (l : Logger) : Decidable (SinkInv l) := by
  unfold SinkInv; infer_instance

/-- All lines ever appended to disk by this sink, archives first, in
append order. -/
def fileLines (l : Logger) : List String :=
  (l.archived.map Prod.snd).flatten ++ l.file

/-- The message whose `appendFile` is in flight, if any. -/
def inFlight (l : Logger) : List String :=
  match l.drains with
  | DrainPC.appending m :: _ => [m]
  | _ => []

/-- Every enqueued line, in the order it will reach the file: already
written, then in flight, then queued. -/
def tracked (l : Logger) : List String :=
  fileLines l ++ inFlight l ++ l.logQueue

/-- The messages of the `enq` events of a trace, in order. -/
def enqMsgs (evs : List Ev) : List String :=
  evs.filterMap (fun e => match e with | Ev.enq m => some m | _ => none)

/-- Whether every filesystem operation in the trace succeeded. -/
def allOk (evs : List Ev) : Bool :=
  evs.all (fun e => match e with | Ev.ioDone ok _ => ok | _ => true)

/-- Occurrence count of a string in a list (JS has set-valued transports;
duplicates would fan out twice). -/
def countStr (x : String) : List String → Nat
  | [] => 0
  | y :: ys => (if y = x then 1 else 0) + countStr x ys

/-- Number of primary formatted lines among console writes. -/
def formattedCount (out : List CWrite) : Nat :=
  (out.filter (fun w => match w with | CWrite.formatted _ _ => true | _ => false)).length

/-! ### Template segmentations (for the formatter claim) -/

/-- A segment of a template: literal text or a `{name}` placeholder. -/
inductive Seg where
  | lit (s : String)
  | ph (name : String)
deriving DecidableEq

/-- The concrete text of a segment. -/
def segText : Seg → String
  | Seg.lit s => s
  | Seg.ph n => "\x7b" ++ n ++ "\x7d"

/-- Concatenated text of a segment list. -/
def segsText : List Seg → String
  | [] => ""
  | s :: rest => segText s ++ segsText rest

/-- What the specification says a segment renders to: literals verbatim, a
placeholder to the field value when present (even if empty) and to the
empty string when absent. -/
def segRender (data : List (String × String)) : Seg → String
  | Seg.lit s => s
  | Seg.ph n => (List.lookup n data).getD ""

/-- Concatenated rendering of a segment list. -/
def segsRender (data : List (String × String)) : List Seg → String
  | [] => ""
  | s :: rest => segRender data s ++ segsRender data rest

/-- Well-formed segments: literals contain no `{`, placeholder names are
nonempty strings of word characters. -/
def segWF : Seg → Bool
  | Seg.lit s => s.data.all (fun c => !(c == '{'))
  | Seg.ph n => (!n.data.isEmpty) && n.data.all isWordChar

/-! ### Formatter lemmas -/

theorem mk_data_eq (s : String) : String.mk s.data = s := rfl

theorem formatGo_lit (data : List (String × String)) (cs rest : List Char)
    (h : ∀ c ∈ cs, c ≠ '{') :
    formatGo data (cs ++ rest) none = cs ++ formatGo data rest none := by
  induction cs with
  | nil => rfl
  | cons c cs ih =>
      have hc : c ≠ '{' := h c (List.mem_cons_self c cs)
      simp only [List.cons_append, formatGo, if_neg hc, List.append_eq]
      rw [ih (fun x hx => h x (List.mem_cons_of_mem c hx))]

theorem formatGo_ph_aux (data : List (String × String)) (name : List Char)
    (h : ∀ c ∈ name, isWordChar c = true) :
    ∀ (acc : List Char) (rest : List Char),
      formatGo data (name ++ '}' :: rest) (some acc) =
        if (acc ++ name).isEmpty then '{' :: '}' :: formatGo data rest none
        else lookupOr data (acc ++ name) ++ formatGo data rest none := by
  induction name with
  | nil =>
      intro acc rest
      simp [formatGo]
  | cons c cs ih =>
      intro acc rest
      have hcw : isWordChar c = true := h c (List.mem_cons_self c cs)
      have hc : c ≠ '}' := by
        intro hEq; rw [hEq] at hcw; exact absurd hcw (by decide)
      simp only [List.cons_append, formatGo, if_neg hc, if_pos hcw, List.append_eq]
      rw [ih (fun x hx => h x (List.mem_cons_of_mem c hx)) (acc ++ [c]) rest]
      simp [List.append_assoc]

theorem formatGo_placeholder (data : List (String × String)) (name rest : List Char)
    (hne : name ≠ []) (h : ∀ c ∈ name, isWordChar c = true) :
    formatGo data ('{' :: (name ++ '}' :: rest)) none =
      lookupOr data name ++ formatGo data rest none := by
  have : formatGo data ('{' :: (name ++ '}' :: rest)) none =
      formatGo data (name ++ '}' :: rest) (some []) := by
    simp [formatGo]
  rw [this, formatGo_ph_aux data name h [] rest]
  simp only [List.nil_append]
  rw [if_neg (by simpa [List.isEmpty_iff] using hne)]

theorem formatGo_segs (segs : List Seg) (data : List (String × String))
    (h : segs.all segWF = true) :
    formatGo data (segsText segs).data none = (segsRender data segs).data := by
  induction segs with
  | nil => rfl
  | cons s rest ih =>
      rw [List.all_cons, Bool.and_eq_true] at h
      obtain ⟨hs, hrest⟩ := h
      cases s with
      | lit str =>
          have hnb : ∀ c ∈ str.data, c ≠ '{' := by
            intro c hc
            have := (List.all_eq_true.mp hs) c hc
            simpa using this
          show formatGo data (segText (Seg.lit str) ++ segsText rest).data none =
            (segRender data (Seg.lit str) ++ segsRender data rest).data
          simp only [segText, segRender, String.data_append]
          rw [formatGo_lit data str.data (segsText rest).data hnb, ih hrest]
      | ph n =>
          rw [segWF, Bool.and_eq_true] at hs
          obtain ⟨hne, hword⟩ := hs
          have hne' : n.data ≠ [] := by
            intro hEq
            rw [List.isEmpty_iff.mpr hEq] at hne
            exact absurd hne (by decide)
          have hword' : ∀ c ∈ n.data, isWordChar c = true := List.all_eq_true.mp hword
          show formatGo data (segText (Seg.ph n) ++ segsText rest).data none =
            (segRender data (Seg.ph n) ++ segsRender data rest).data
          simp only [segText, segRender, String.data_append]
          have hdata : (['{'] ++ n.data ++ ['}'] ++ (segsText rest).data : List Char) =
              '{' :: (n.data ++ '}' :: (segsText rest).data) := by
            simp
          rw [hdata, formatGo_placeholder data n.data (segsText rest).data hne' hword', ih hrest]
          congr 1
          show lookupOr data n.data = ((List.lookup n data).getD "").data
          rw [lookupOr, mk_data_eq]
          cases List.lookup n data <;> rfl

/-- Claim C3: `format` replaces every `{name}` placeholder by the field's
string value when present (even the empty string) and by the empty string
when absent, never fails, and ignores unrecognized data keys; in
particular `format("[{a}] {b}", {a:"x", b:"y"}) = "[x] y"` and
`format("{missing}", {}) = ""`. -/
theorem format_placeholder_substitution :
    (∀ (segs : List Seg) (data : List (String × String)), segs.all segWF = true →
        format (segsText segs) data = segsRender data segs)
    ∧ format "[{a}] {b}" [("a", "x"), ("b", "y")] = "[x] y"
    ∧ format "{missing}" [] = ""
    ∧ format "{a}" [("a", "")] = ""
    ∧ format "[{a}] {b}" [("a", "x"), ("b", "y"), ("zzz", "ignored")] = "[x] y" := by
  refine ⟨?_, by decide, by decide, by decide, by decide⟩
  intro segs data h
  show String.mk (formatGo data (segsText segs).data none) = _
  rw [formatGo_segs segs data h, mk_data_eq]

theorem format_placeholder_substitution_witness :
    List.all [Seg.lit "[", Seg.ph "a", Seg.lit "] ", Seg.ph "b"] segWF = true ∧
    format (segsText [Seg.lit "[", Seg.ph "a", Seg.lit "] ", Seg.ph "b"])
        [("a", "x"), ("b", "y")] =
      segsRender [("a", "x"), ("b", "y")]
        [Seg.lit "[", Seg.ph "a", Seg.lit "] ", Seg.ph "b"] :=
  ⟨by decide, format_placeholder_substitution.1 _ _ (by decide)⟩

/-! ### Level policy lemmas -/

theorem jsIndexOf_eq_neg_one_of_not_mem (xs : List String) (x : String) (h : x ∉ xs) :
    jsIndexOf xs x = -1 := by
  rw [jsIndexOf]
  induction xs with
  | nil => rfl
  | cons y ys ih =>
      have hne : y ≠ x := fun hEq => h (hEq ▸ List.mem_cons_self y ys)
      have hx : x ∉ ys := fun hmem => h (List.mem_cons_of_mem y hmem)
      simp [jsIndexOfAux, hne, ih hx]

theorem jsIndexOf_nonneg_of_mem (xs : List String) (x : String) (h : x ∈ xs) :
    0 ≤ jsIndexOf xs x := by
  rw [jsIndexOf]
  induction xs with
  | nil => exact absurd h (List.not_mem_nil x)
  | cons y ys ih =>
      by_cases hy : y = x
      · simp [jsIndexOfAux, hy]
      · have hx : x ∈ ys := by
          rcases List.mem_cons.mp h with hEq | hmem
          · exact absurd hEq.symm hy
          · exact hmem
        have hge := ih hx
        simp only [jsIndexOfAux, if_neg hy]
        have hne : jsIndexOfAux x ys ≠ -1 := by omega
        simp only [if_neg hne]
        omega

/-- Concrete file-sink logger used as witness input. -/
def fileLogger : Logger :=
  { level := "info", format := "[{timestamp}] {level}: {message}", filePath := some "logs/app.log",
    maxFileSize := 1048576, transports := ["file"], httpRequest := false,
    logQueue := [], isWriting := false, drains := [], file := [], archived := [],
    consoleOut := [], dirCreated := true }

/-- Concrete console-only logger used as witness input. -/
def consoleLogger : Logger :=
  { level := "info", format := "[{timestamp}] {level}: {message}", filePath := none,
    maxFileSize := 1048576, transports := ["console"], httpRequest := false,
    logQueue := [], isWriting := false, drains := [], file := [], archived := [],
    consoleOut := [], dirCreated := false }

/-- Claim C8: a level string outside `{debug, info, warn, error}` gets rank
`-1` and is never admitted: `log` with an unrecognized level produces no
output on any transport, for every configured minimum level (the
configuration's level domain being the four recognized levels). -/
theorem unknown_level_never_admitted :
    ∀ (level : String), level ∉ levels →
      jsIndexOf levels level = -1 ∧
      ∀ (l : Logger), l.level ∈ levels → ∀ (ts : String) (args : List Arg),
        shouldLog l level = false ∧ log ts l level args = l := by
  intro level hmem
  have hidx : jsIndexOf levels level = -1 := jsIndexOf_eq_neg_one_of_not_mem levels level hmem
  refine ⟨hidx, fun l hl ts args => ?_⟩
  have hmin : 0 ≤ jsIndexOf levels l.level := jsIndexOf_nonneg_of_mem levels l.level hl
  have hfalse : shouldLog l level = false := by
    rw [shouldLog, hidx]
    simp only [decide_eq_false_iff_not]
    omega
  exact ⟨hfalse, by simp [log, hfalse]⟩

theorem unknown_level_never_admitted_witness :
    "verbose" ∉ levels ∧ jsIndexOf levels "verbose" = -1 ∧
      shouldLog consoleLogger "verbose" = false ∧
      log "TS" consoleLogger "verbose" [Arg.str "x"] = consoleLogger := by
  have h := unknown_level_never_admitted "verbose" (by decide)
  have h2 := h.2 consoleLogger (by decide) "TS" [Arg.str "x"]
  exact ⟨by decide, h.1, h2.1, h2.2⟩

/-! ### Constructor claims -/

/-- Claim C9 counterexample: constructing with the file transport enabled
and no `filePath` does not surface any error — the constructor returns the
instance normally (file-directory setup silently skipped). -/
theorem config_error_counterexample :
    construct { transports := some ["file"] } =
      Except.ok
        { level := "info", format := "[{timestamp}] {level}: {message}", filePath := none,
          maxFileSize := 1048576, transports := ["file"], httpRequest := false,
          logQueue := [], isWriting := false, drains := [], file := [], archived := [],
          consoleOut := [], dirCreated := false } := rfl

/-- Claim C9 (amended): constructing a `Logger` with the file transport
enabled but a missing or empty `filePath` does not surface an error at
construction; the instance is created normally with `filePath = null` and
the directory-creation step skipped (the file transport is then inert, see
the C10 theorem). -/
theorem construction_accepts_missing_filepath :
    ∀ (options : LoggerOptions),
      options.filePath = none ∨ options.filePath = some "" →
      ∃ l, construct options = Except.ok l ∧ l.filePath = none ∧ l.dirCreated = false := by
  intro o h
  rcases h with h | h <;>
    exact ⟨_, rfl, by simp [construct, optFilePath, h], by simp [construct, optFilePath, h]⟩

theorem construction_accepts_missing_filepath_witness :
    ((some ["file"] : Option (List String)) = some ["file"]) ∧
    ∃ l, construct { transports := some ["file"] } = Except.ok l ∧
      l.filePath = none ∧ l.dirCreated = false :=
  ⟨rfl, construction_accepts_missing_filepath { transports := some ["file"] } (Or.inl rfl)⟩

/-! ### File-sink step lemmas -/

theorem writeLogsLoop_frame (l : Logger) (rest : List DrainPC) :
    (writeLogsLoop l rest).file = l.file ∧ (writeLogsLoop l rest).archived = l.archived ∧
    (writeLogsLoop l rest).consoleOut = l.consoleOut ∧
    (writeLogsLoop l rest).filePath = l.filePath ∧
    (writeLogsLoop l rest).transports = l.transports ∧
    (writeLogsLoop l rest).level = l.level := by
  cases hq : l.logQueue <;> simp [writeLogsLoop, hq]

theorem writeLogsLoop_inv (l : Logger) (h : l.isWriting = true) :
    SinkInv (writeLogsLoop l []) := by
  cases hq : l.logQueue <;> simp [writeLogsLoop, hq, SinkInv, h]

theorem tracked_writeLogsLoop (l : Logger) :
    tracked (writeLogsLoop l []) = fileLines l ++ l.logQueue := by
  cases hq : l.logQueue <;>
    simp [writeLogsLoop, tracked, fileLines, inFlight, hq]

theorem logToFile_frame (m : String) (l : Logger) :
    (logToFile m l).file = l.file ∧ (logToFile m l).archived = l.archived ∧
    (logToFile m l).consoleOut = l.consoleOut ∧ (logToFile m l).filePath = l.filePath ∧
    (logToFile m l).transports = l.transports ∧ (logToFile m l).level = l.level := by
  by_cases hw : l.isWriting = true <;>
    cases hq : l.logQueue <;>
      simp [logToFile, writeLogsLoop, hw, hq]

theorem logToFile_inv (m : String) (l : Logger) (h : SinkInv l) : SinkInv (logToFile m l) := by
  obtain ⟨hiff, hlen⟩ := h
  by_cases hw : l.isWriting = true
  · have : logToFile m l = { l with logQueue := l.logQueue ++ [m] } := by
      simp [logToFile, hw]
    rw [this]
    exact ⟨hiff, hlen⟩
  · have hw' : l.isWriting = false := by
      cases hval : l.isWriting
      · rfl
      · exact absurd hval hw
    have hdr : l.drains = [] := by
      by_contra hne
      exact hw (hiff.mpr hne)
    cases hq : l.logQueue <;>
      simp [logToFile, writeLogsLoop, hw', hq, hdr, SinkInv]

theorem logToFile_tracked (m : String) (l : Logger) (h : SinkInv l) :
    tracked (logToFile m l) = tracked l ++ [m] := by
  obtain ⟨hiff, hlen⟩ := h
  by_cases hw : l.isWriting = true
  · simp [logToFile, hw, tracked, fileLines, inFlight]
  · have hw' : l.isWriting = false := by
      cases hval : l.isWriting
      · rfl
      · exact absurd hval hw
    have hdr : l.drains = [] := by
      by_contra hne
      exact hw (hiff.mpr hne)
    cases hq : l.logQueue <;>
      simp [logToFile, writeLogsLoop, hw', hq, hdr, tracked, fileLines, inFlight]

theorem resume_append_ok (l : Logger) (m : String) (rest : List DrainPC) (iso : String)
    (h : l.drains = DrainPC.appending m :: rest) :
    resume true iso l =
      Except.ok { l with file := l.file ++ [m], drains := DrainPC.statting :: rest } := by
  simp [resume, h, appendFileE, tryCatchE, Except.bind]

theorem resume_append_fail (l : Logger) (m : String) (rest : List DrainPC) (iso : String)
    (h : l.drains = DrainPC.appending m :: rest) :
    resume false iso l =
      Except.ok
        { l with
          consoleOut := l.consoleOut ++ [CWrite.raw "error" "Error writing to log file:"],
          isWriting := false, drains := rest } := by
  simp [resume, h, appendFileE, tryCatchE, Except.bind]

theorem resume_stat_small (l : Logger) (rest : List DrainPC) (iso : String)
    (h : l.drains = DrainPC.statting :: rest) (hsize : ¬ fileSize l.file > l.maxFileSize) :
    resume true iso l = Except.ok (writeLogsLoop l rest) := by
  simp [resume, h, statE, checkFileSizeStat, hsize]

theorem resume_stat_big (l : Logger) (rest : List DrainPC) (iso : String)
    (h : l.drains = DrainPC.statting :: rest) (hsize : fileSize l.file > l.maxFileSize) :
    resume true iso l =
      Except.ok
        { l with
          drains := DrainPC.renaming
            (rotatedFilePath (l.filePath.getD "") (isoSanitize iso)) :: rest } := by
  simp [resume, h, statE, checkFileSizeStat, hsize]

theorem resume_stat_fail (l : Logger) (rest : List DrainPC) (iso : String)
    (h : l.drains = DrainPC.statting :: rest) :
    resume false iso l =
      Except.ok (writeLogsLoop
        { l with consoleOut := l.consoleOut ++ [CWrite.raw "error" "Error during log rotation:"] }
        rest) := by
  simp [resume, h, statE, checkFileSizeStat]

theorem resume_rename_ok (l : Logger) (t : String) (rest : List DrainPC) (iso : String)
    (h : l.drains = DrainPC.renaming t :: rest) :
    resume true iso l =
      Except.ok (writeLogsLoop
        { l with archived := l.archived ++ [(t, l.file)], file := [] } rest) := by
  simp [resume, h, renameE, checkFileSizeRename]

theorem resume_rename_fail (l : Logger) (t : String) (rest : List DrainPC) (iso : String)
    (h : l.drains = DrainPC.renaming t :: rest) :
    resume false iso l =
      Except.ok (writeLogsLoop
        { l with consoleOut := l.consoleOut ++ [CWrite.raw "error" "Error during log rotation:"] }
        rest) := by
  simp [resume, h, renameE, checkFileSizeRename]

theorem resume_ok_total (ok : Bool) (iso : String) (l : Logger) :
    ∃ l2, resume ok iso l = Except.ok l2 := by
  rcases hd : l.drains with _ | ⟨pc, rest⟩
  · exact ⟨l, by simp [resume, hd]⟩
  · rcases pc with m | _ | t
    · cases ok
      · exact ⟨_, resume_append_fail l m rest iso hd⟩
      · exact ⟨_, resume_append_ok l m rest iso hd⟩
    · cases ok
      · exact ⟨_, resume_stat_fail l rest iso hd⟩
      · by_cases hsize : fileSize l.file > l.maxFileSize
        · exact ⟨_, resume_stat_big l rest iso hd hsize⟩
        · exact ⟨_, resume_stat_small l rest iso hd hsize⟩
    · cases ok
      · exact ⟨_, resume_rename_fail l t rest iso hd⟩
      · exact ⟨_, resume_rename_ok l t rest iso hd⟩

theorem resumeRun_eq (ok : Bool) (iso : String) (l l2 : Logger)
    (h : resume ok iso l = Except.ok l2) : resumeRun ok iso l = l2 := by
  simp [resumeRun, h]

theorem rest_nil_of_inv (l : Logger) (pc : DrainPC) (rest : List DrainPC)
    (hd : l.drains = pc :: rest) (hlen : l.drains.length ≤ 1) : rest = [] := by
  rw [hd] at hlen
  simp only [List.length_cons] at hlen
  exact List.length_eq_zero.mp (by omega)

theorem stepEv_inv (l : Logger) (e : Ev) (h : SinkInv l) : SinkInv (stepEv l e) := by
  cases e with
  | enq m => exact logToFile_inv m l h
  | ioDone ok iso =>
      show SinkInv (resumeRun ok iso l)
      obtain ⟨hiff, hlen⟩ := h
      rcases hd : l.drains with _ | ⟨pc, rest⟩
      · rw [resumeRun_eq ok iso l l (by simp [resume, hd])]
        exact ⟨hiff, hlen⟩
      · have hw : l.isWriting = true := hiff.mpr (by simp [hd])
        have hrest : rest = [] := rest_nil_of_inv l pc rest hd hlen
        subst hrest
        rcases pc with m | _ | t
        · cases ok
          · rw [resumeRun_eq _ _ _ _ (resume_append_fail l m [] iso hd)]
            simp [SinkInv]
          · rw [resumeRun_eq _ _ _ _ (resume_append_ok l m [] iso hd)]
            simp [SinkInv, hw]
        · cases ok
          · rw [resumeRun_eq _ _ _ _ (resume_stat_fail l [] iso hd)]
            exact writeLogsLoop_inv _ hw
          · by_cases hsize : fileSize l.file > l.maxFileSize
            · rw [resumeRun_eq _ _ _ _ (resume_stat_big l [] iso hd hsize)]
              simp [SinkInv, hw]
            · rw [resumeRun_eq _ _ _ _ (resume_stat_small l [] iso hd hsize)]
              exact writeLogsLoop_inv _ hw
        · cases ok
          · rw [resumeRun_eq _ _ _ _ (resume_rename_fail l t [] iso hd)]
            exact writeLogsLoop_inv _ hw
          · rw [resumeRun_eq _ _ _ _ (resume_rename_ok l t [] iso hd)]
            exact writeLogsLoop_inv _ hw

theorem resumeRun_tracked (iso : String) (l : Logger) (h : SinkInv l) :
    tracked (resumeRun true iso l) = tracked l := by
  obtain ⟨hiff, hlen⟩ := h
  rcases hd : l.drains with _ | ⟨pc, rest⟩
  · rw [resumeRun_eq true iso l l (by simp [resume, hd])]
  · have hrest : rest = [] := rest_nil_of_inv l pc rest hd hlen
    subst hrest
    rcases pc with m | _ | t
    · rw [resumeRun_eq _ _ _ _ (resume_append_ok l m [] iso hd)]
      simp [tracked, fileLines, inFlight, hd]
    · by_cases hsize : fileSize l.file > l.maxFileSize
      · rw [resumeRun_eq _ _ _ _ (resume_stat_big l [] iso hd hsize)]
        simp [tracked, fileLines, inFlight, hd]
      · rw [resumeRun_eq _ _ _ _ (resume_stat_small l [] iso hd hsize)]
        rw [tracked_writeLogsLoop]
        simp [tracked, inFlight, hd]
    · rw [resumeRun_eq _ _ _ _ (resume_rename_ok l t [] iso hd)]
      rw [tracked_writeLogsLoop]
      simp [tracked, fileLines, inFlight, hd]

theorem run_inv (evs : List Ev) : ∀ l : Logger, SinkInv l → SinkInv (run l evs) := by
  induction evs with
  | nil => intro l h; exact h
  | cons e evs ih =>
      intro l h
      have hstep := ih (stepEv l e) (stepEv_inv l e h)
      simpa [run, List.foldl_cons] using hstep

theorem run_tracked (evs : List Ev) : ∀ l : Logger, SinkInv l → allOk evs = true →
    tracked (run l evs) = tracked l ++ enqMsgs evs := by
  induction evs with
  | nil => intro l h hok; simp [run, enqMsgs]
  | cons e evs ih =>
      intro l h hok
      rw [allOk, List.all_cons, Bool.and_eq_true] at hok
      obtain ⟨hok1, hok2⟩ := hok
      cases e with
      | enq m =>
          have h2 := ih (logToFile m l) (logToFile_inv m l h) hok2
          have : run l (Ev.enq m :: evs) = run (logToFile m l) evs := by
            simp [run, List.foldl_cons, stepEv]
          rw [this, h2, logToFile_tracked m l h]
          simp [enqMsgs]
      | ioDone ok iso =>
          have hokT : ok = true := hok1
          subst hokT
          have h2 := ih (resumeRun true iso l) (stepEv_inv l (Ev.ioDone true iso) h) hok2
          have : run l (Ev.ioDone true iso :: evs) = run (resumeRun true iso l) evs := by
            simp [run, List.foldl_cons, stepEv]
          rw [this, h2, resumeRun_tracked iso l h]
          simp [enqMsgs]

/-- The C1 scenario: three immediate enqueues on an empty queue, then the
six successful filesystem completions (append and stat per line). -/
def fifoTrace : List Ev :=
  [Ev.enq "1", Ev.enq "2", Ev.enq "3", Ev.ioDone true "", Ev.ioDone true "",
   Ev.ioDone true "", Ev.ioDone true "", Ev.ioDone true "", Ev.ioDone true ""]

/-- Claim C1: on one `Logger` instance, at most one `writeLogs` drain is
active at any time (single-writer discipline), the lines reaching the file
are exactly the `logToFile` messages in FIFO order, every `logToFile` call
returns before any write completes, and the concrete `"1","2","3"`
scenario ends with file lines `1,2,3`, an empty queue and a cleared
flag. -/
theorem file_sink_fifo_single_writer :
    (∀ (l : Logger) (evs : List Ev), SinkInv l →
        SinkInv (run l evs) ∧ (run l evs).drains.length ≤ 1 ∧
        (allOk evs = true → tracked (run l evs) = tracked l ++ enqMsgs evs))
    ∧ (∀ (m : String) (l : Logger),
        (logToFile m l).file = l.file ∧ (logToFile m l).archived = l.archived)
    ∧ (run fileLogger fifoTrace).file = ["1", "2", "3"]
    ∧ (run fileLogger fifoTrace).logQueue = []
    ∧ (run fileLogger fifoTrace).isWriting = false
    ∧ (run fileLogger fifoTrace).drains = [] := by
  refine ⟨?_, ?_, by decide, by decide, by decide, by decide⟩
  · intro l evs h
    have hrun := run_inv evs l h
    exact ⟨hrun, hrun.2, fun hok => run_tracked evs l h hok⟩
  · intro m l
    exact ⟨(logToFile_frame m l).1, (logToFile_frame m l).2.1⟩

theorem file_sink_fifo_single_writer_witness :
    SinkInv (run fileLogger fifoTrace) ∧ (run fileLogger fifoTrace).drains.length ≤ 1 ∧
      tracked (run fileLogger fifoTrace) = tracked fileLogger ++ enqMsgs fifoTrace := by
  have h := file_sink_fifo_single_writer.1 fileLogger fifoTrace (by decide)
  exact ⟨h.1, h.2.1, h.2.2 (by decide)⟩

/-- Concrete logger suspended on a failing append, used as witness input. -/
def failLogger : Logger :=
  { fileLogger with drains := [DrainPC.appending "x"], isWriting := true }

/-- Claim C5: an append failure during a drain is reported on the console
error channel, the failing line is dropped (never re-enqueued) while the
rest of the queue is untouched, the `isWriting` flag is cleared on every
exit path of the drain (so a later enqueue always starts a new drain), and
the drain terminates when the queue is empty. -/
theorem write_failure_recovery :
    (∀ (l : Logger) (m : String) (rest : List DrainPC) (iso : String),
        l.drains = DrainPC.appending m :: rest →
        resume false iso l =
          Except.ok
            { l with
              consoleOut := l.consoleOut ++ [CWrite.raw "error" "Error writing to log file:"],
              isWriting := false, drains := rest })
    ∧ (∀ (l : Logger) (m : String), l.isWriting = false →
        (logToFile m l).isWriting = true ∧ (logToFile m l).drains ≠ [])
    ∧ (∀ (l : Logger) (rest : List DrainPC) (iso : String),
        l.drains = DrainPC.statting :: rest → l.logQueue = [] →
        ¬ fileSize l.file > l.maxFileSize →
        resume true iso l = Except.ok { l with isWriting := false, drains := rest })
    ∧ (∀ (l : Logger) (evs : List Ev), SinkInv l → (run l evs).drains = [] →
        (run l evs).isWriting = false) := by
  refine ⟨resume_append_fail, ?_, ?_, ?_⟩
  · intro l m hw
    have hw' : l.isWriting = true → False := by
      intro h; rw [h] at hw; exact absurd hw (by decide)
    cases hq : l.logQueue <;>
      simp [logToFile, writeLogsLoop, hw, hq]
  · intro l rest iso hd hq hsize
    rw [resume_stat_small l rest iso hd hsize]
    simp [writeLogsLoop, hq]
  · intro l evs h hdr
    have hinv := run_inv evs l h
    obtain ⟨hiff, _⟩ := hinv
    cases hval : (run l evs).isWriting
    · rfl
    · exact absurd hdr (hiff.mp hval)

theorem write_failure_recovery_witness :
    failLogger.drains = DrainPC.appending "x" :: [] ∧
    resume false "I" failLogger =
      Except.ok
        { failLogger with
          consoleOut := failLogger.consoleOut ++ [CWrite.raw "error" "Error writing to log file:"],
          isWriting := false, drains := [] } :=
  ⟨rfl, write_failure_recovery.1 failLogger "x" [] "I" rfl⟩

/-! ### Rotation -/

theorem takeWhile_append_of_all (p : Char → Bool) (l1 : List Char) (c : Char) (l2 : List Char)
    (h1 : ∀ x ∈ l1, p x = true) (hc : p c = false) :
    (l1 ++ c :: l2).takeWhile p = l1 ∧ (l1 ++ c :: l2).dropWhile p = c :: l2 := by
  induction l1 with
  | nil => simp [List.takeWhile_cons, List.dropWhile_cons, hc]
  | cons x xs ih =>
      have hx : p x = true := h1 x (List.mem_cons_self x xs)
      have hrest := ih (fun y hy => h1 y (List.mem_cons_of_mem x hy))
      simp [List.takeWhile_cons, List.dropWhile_cons, hx, hrest.1, hrest.2]

/-- Concrete logger one successful oversize append away from rotation,
used as witness input. -/
def rotLogger : Logger :=
  { fileLogger with
    filePath := some "app.log", maxFileSize := 3, file := ["abcd"],
    drains := [DrainPC.appending "x"], isWriting := true }

/-- Claim C4: on the drain path, after an append that pushes the file size
strictly over `maxFileSize`, the file is renamed — before any further
append proceeds — to `<stem>-<ISO timestamp with ':' and '.' replaced by
'-'><original extension>`, leaving the original path free (the model file
is emptied). -/
theorem rotation_after_oversize_append :
    (∀ (stem ext ts : String), ext.data ≠ [] → (∀ c ∈ ext.data, isWordChar c = true) →
        rotatedFilePath (stem ++ "." ++ ext) ts = stem ++ "-" ++ ts ++ "." ++ ext)
    ∧ rotatedFilePath "applog" "T" = "applog-T"
    ∧ isoSanitize "2024-01-02T03:04:05.678Z" = "2024-01-02T03-04-05-678Z"
    ∧ (∀ (l : Logger) (m iso1 iso2 iso3 : String), l.drains = [DrainPC.appending m] →
        fileSize (l.file ++ [m]) > l.maxFileSize →
        ∃ l1 l2 l3,
          resume true iso1 l = Except.ok l1 ∧
          l1.file = l.file ++ [m] ∧ l1.drains = [DrainPC.statting] ∧
          l1.archived = l.archived ∧ l1.logQueue = l.logQueue ∧
          resume true iso2 l1 = Except.ok l2 ∧
          l2.drains =
            [DrainPC.renaming (rotatedFilePath (l.filePath.getD "") (isoSanitize iso2))] ∧
          l2.file = l.file ++ [m] ∧ l2.archived = l.archived ∧
          resume true iso3 l2 = Except.ok l3 ∧
          l3.file = [] ∧
          l3.archived = l.archived ++
            [(rotatedFilePath (l.filePath.getD "") (isoSanitize iso2), l.file ++ [m])]) := by
  refine ⟨?_, by decide, by decide, ?_⟩
  · intro stem ext ts hne hword
    have hdata : (stem ++ "." ++ ext).data.reverse =
        ext.data.reverse ++ '.' :: stem.data.reverse := by
      simp [String.data_append]
    have hall : ∀ x ∈ ext.data.reverse, isWordChar x = true := by
      intro x hx
      exact hword x (List.mem_reverse.mp hx)
    have hsplit := takeWhile_append_of_all isWordChar ext.data.reverse '.' stem.data.reverse
      hall (by decide)
    rw [rotatedFilePath, hdata, hsplit.1, hsplit.2, rotAux]
    have hnemp : ext.data.reverse.isEmpty = false := by
      cases hext : ext.data
      · exact absurd hext hne
      · simp [hext]
    rw [if_neg (by simp [hnemp])]
    simp [mk_data_eq]
  · intro l m iso1 iso2 iso3 hd hsize
    have h1 := resume_append_ok l m [] iso1 hd
    have h2 := resume_stat_big
      ({ l with file := l.file ++ [m], drains := [DrainPC.statting] }) [] iso2 rfl
      (by simpa using hsize)
    have h3 := resume_rename_ok
      ({ l with
         file := l.file ++ [m],
         drains := [DrainPC.renaming (rotatedFilePath (l.filePath.getD "") (isoSanitize iso2))] })
      (rotatedFilePath (l.filePath.getD "") (isoSanitize iso2)) [] iso3 rfl
    refine ⟨_, _, _, h1, ?_, ?_, ?_, ?_, h2, ?_, ?_, ?_, h3, ?_, ?_⟩
    · rfl
    · rfl
    · rfl
    · rfl
    · rfl
    · rfl
    · rfl
    · simpa using (writeLogsLoop_frame _ []).1
    · simpa using (writeLogsLoop_frame _ []).2.1

theorem rotation_after_oversize_append_witness :
    rotatedFilePath ("app" ++ "." ++ "log") "T" = "app" ++ "-" ++ "T" ++ "." ++ "log" ∧
    (∃ l1 l2 l3,
      resume true "A" rotLogger = Except.ok l1 ∧
      l1.file = rotLogger.file ++ ["x"] ∧ l1.drains = [DrainPC.statting] ∧
      l1.archived = rotLogger.archived ∧ l1.logQueue = rotLogger.logQueue ∧
      resume true "B" l1 = Except.ok l2 ∧
      l2.drains =
        [DrainPC.renaming (rotatedFilePath (rotLogger.filePath.getD "") (isoSanitize "B"))] ∧
      l2.file = rotLogger.file ++ ["x"] ∧ l2.archived = rotLogger.archived ∧
      resume true "C" l2 = Except.ok l3 ∧
      l3.file = [] ∧
      l3.archived = rotLogger.archived ++
        [(rotatedFilePath (rotLogger.filePath.getD "") (isoSanitize "B"),
          rotLogger.file ++ ["x"])]) :=
  ⟨rotation_after_oversize_append.1 "app" "log" "T" (by decide) (by decide),
   rotation_after_oversize_append.2.2.2 rotLogger "x" "A" "B" "C" rfl (by decide)⟩

/-- Claim C6: no error from the logging subsystem propagates to the
caller.  The synchronous entry points `log`/`info`/`warn`/`error`/`debug`
are total functions of the state (they contain no throwing operation), and
every injected filesystem failure on the asynchronous drain is absorbed by
the `try/catch` structure: `resume` never returns an escaped exception. -/
theorem log_never_throws :
    (∀ (ok : Bool) (iso : String) (l : Logger),
        ∃ l2, resume ok iso l = Except.ok l2 ∧ resumeRun ok iso l = l2)
    ∧ (∀ (ts : String) (l : Logger) (args : List Arg),
        Logger.info ts l args = log ts l "info" args ∧
        Logger.warn ts l args = log ts l "warn" args ∧
        Logger.error ts l args = log ts l "error" args ∧
        Logger.debug ts l args = log ts l "debug" args) := by
  refine ⟨?_, fun ts l args => ⟨rfl, rfl, rfl, rfl⟩⟩
  intro ok iso l
  obtain ⟨l2, h⟩ := resume_ok_total ok iso l
  exact ⟨l2, h, resumeRun_eq ok iso l l2 h⟩

/-! ### Dispatcher lemmas -/

/-- The extra console writes of one `log` call caused by `Error`
arguments, in argument order. -/
def stackWrites (method level : String) : List Arg → List CWrite
  | [] => []
  | Arg.err name message stack :: rest =>
      CWrite.stackLabel method (colorOf level ++ "Stack trace:" ++ colorOf "reset") ::
        CWrite.errObject method name message stack :: stackWrites method level rest
  | Arg.str _ :: rest => stackWrites method level rest

/-- Everything one `log` call writes to the console transport. -/
def consoleBlock (level formattedMessage : String) (args : List Arg) : List CWrite :=
  CWrite.formatted (consoleMethod level)
      (colorOf level ++ formattedMessage ++ colorOf "reset") ::
    stackWrites (consoleMethod level) level args

theorem foldl_logErrorArg (method level : String) (args : List Arg) :
    ∀ l : Logger, args.foldl (logErrorArg method level) l =
      { l with consoleOut := l.consoleOut ++ stackWrites method level args } := by
  induction args with
  | nil =>
      intro l
      cases l
      simp [stackWrites]
  | cons a args ih =>
      intro l
      cases a with
      | str s => simp [List.foldl_cons, logErrorArg, stackWrites, ih]
      | err n msg st =>
          rw [List.foldl_cons]
          show args.foldl (logErrorArg method level) _ = _
          rw [ih]
          simp [logErrorArg, stackWrites, List.append_assoc]

theorem logTransport_console (level fm : String) (args : List Arg) (l : Logger) :
    logTransport level fm args l "console" =
      { l with consoleOut := l.consoleOut ++ consoleBlock level fm args } := by
  rw [logTransport, if_pos rfl]
  show args.foldl _ _ = _
  rw [foldl_logErrorArg]
  simp [consoleBlock, List.append_assoc]

theorem logTransport_file (level fm : String) (args : List Arg) (l : Logger) :
    logTransport level fm args l "file" =
      if filePathTruthy l then logToFile fm l else l := by
  rw [logTransport, if_neg (by decide), if_pos rfl]

theorem logTransport_other (level fm : String) (args : List Arg) (l : Logger) (t : String)
    (h1 : t ≠ "console") (h2 : t ≠ "file") :
    logTransport level fm args l t = l := by
  rw [logTransport, if_neg h1, if_neg h2]

theorem formattedCount_append (a b : List CWrite) :
    formattedCount (a ++ b) = formattedCount a + formattedCount b := by
  simp [formattedCount, List.filter_append]

theorem formattedCount_stackWrites (method level : String) (args : List Arg) :
    formattedCount (stackWrites method level args) = 0 := by
  induction args with
  | nil => rfl
  | cons a args ih =>
      cases a with
      | str s => simpa [stackWrites] using ih
      | err n msg st => simpa [stackWrites, formattedCount, List.filter_cons] using ih

theorem formattedCount_consoleBlock (level fm : String) (args : List Arg) :
    formattedCount (consoleBlock level fm args) = 1 := by
  simp [consoleBlock, formattedCount, List.filter_cons, formattedCount_stackWrites]
  have := formattedCount_stackWrites (consoleMethod level) level args
  simpa [formattedCount] using this

theorem filePathTruthy_logToFile (m : String) (l : Logger) :
    filePathTruthy (logToFile m l) = filePathTruthy l := by
  unfold filePathTruthy
  rw [(logToFile_frame m l).2.2.2.1]

theorem tracked_set_consoleOut (l : Logger) (x : List CWrite) :
    tracked { l with consoleOut := x } = tracked l := rfl

theorem foldl_logTransport_counts (level fm : String) (args : List Arg) :
    ∀ (trs : List String) (l : Logger), SinkInv l → ("file" ∈ trs → filePathTruthy l = true) →
      SinkInv (trs.foldl (logTransport level fm args) l) ∧
      formattedCount (trs.foldl (logTransport level fm args) l).consoleOut =
        formattedCount l.consoleOut + countStr "console" trs ∧
      (tracked (trs.foldl (logTransport level fm args) l)).length =
        (tracked l).length + countStr "file" trs := by
  intro trs
  induction trs with
  | nil =>
      intro l hinv htr
      exact ⟨hinv, by simp [countStr], by simp [countStr]⟩
  | cons t ts ih =>
      intro l hinv htr
      rw [List.foldl_cons]
      by_cases hc : t = "console"
      · subst hc
        rw [logTransport_console]
        have hinv1 : SinkInv { l with consoleOut := l.consoleOut ++ consoleBlock level fm args } :=
          hinv
        have htr1 : "file" ∈ ts →
            filePathTruthy { l with consoleOut := l.consoleOut ++ consoleBlock level fm args } =
              true :=
          fun h => htr (List.mem_cons_of_mem _ h)
        obtain ⟨a, b, c⟩ := ih _ hinv1 htr1
        refine ⟨a, ?_, ?_⟩
        · rw [b]
          show formattedCount (l.consoleOut ++ consoleBlock level fm args) + countStr "console" ts =
            formattedCount l.consoleOut + countStr "console" ("console" :: ts)
          rw [formattedCount_append, formattedCount_consoleBlock]
          simp [countStr]
          omega
        · rw [c, tracked_set_consoleOut]
          simp [countStr]
      · by_cases hf : t = "file"
        · subst hf
          have htruthy : filePathTruthy l = true := htr (List.mem_cons_self _ _)
          rw [logTransport_file, if_pos htruthy]
          have hinv1 := logToFile_inv fm l hinv
          have htr1 : "file" ∈ ts → filePathTruthy (logToFile fm l) = true := by
            intro _
            rw [filePathTruthy_logToFile]
            exact htruthy
          obtain ⟨a, b, c⟩ := ih _ hinv1 htr1
          refine ⟨a, ?_, ?_⟩
          · rw [b, (logToFile_frame fm l).2.2.1]
            simp [countStr]
          · rw [c, logToFile_tracked fm l hinv]
            simp [countStr]
            omega
        · rw [logTransport_other level fm args l t hc hf]
          have htr1 : "file" ∈ ts → filePathTruthy l = true :=
            fun h => htr (List.mem_cons_of_mem _ h)
          obtain ⟨a, b, c⟩ := ih _ hinv htr1
          exact ⟨a, by rw [b]; simp [countStr, hc, hf], by rw [c]; simp [countStr, hc, hf]⟩

theorem foldl_logTransport_falsy (level fm : String) (args : List Arg) :
    ∀ (trs : List String) (l : Logger), filePathTruthy l = false →
      trs.foldl (logTransport level fm args) l =
        { l with consoleOut := l.consoleOut ++
            (List.replicate (countStr "console" trs) (consoleBlock level fm args)).flatten } := by
  intro trs
  induction trs with
  | nil =>
      intro l hfalse
      cases l
      simp [countStr]
  | cons t ts ih =>
      intro l hfalse
      rw [List.foldl_cons]
      by_cases hc : t = "console"
      · subst hc
        rw [logTransport_console,
          ih { l with consoleOut := l.consoleOut ++ consoleBlock level fm args } hfalse]
        have hcount : countStr "console" ("console" :: ts) = countStr "console" ts + 1 := by
          simp [countStr, Nat.add_comm]
        rw [hcount]
        simp [List.replicate_succ, List.append_assoc]
      · by_cases hf : t = "file"
        · subst hf
          rw [logTransport_file, hfalse]
          simp only [Bool.false_eq_true, if_false]
          rw [ih l hfalse]
          simp [countStr, hc]
        · rw [logTransport_other level fm args l t hc hf, ih l hfalse]
          simp [countStr, hc, hf]

theorem countStr_filter_self (x : String) (trs : List String) :
    countStr x (trs.filter (fun t => t == x)) = countStr x trs := by
  induction trs with
  | nil => rfl
  | cons t ts ih =>
      by_cases h : t = x
      · subst h
        simp [List.filter_cons, countStr, ih]
      · simp [List.filter_cons, countStr, h, ih]

theorem countStr_nodup (x : String) (trs : List String) (h : trs.Nodup) :
    countStr x trs = if x ∈ trs then 1 else 0 := by
  induction trs with
  | nil => simp [countStr]
  | cons t ts ih =>
      rw [List.nodup_cons] at h
      by_cases hx : t = x
      · subst hx
        rw [countStr, ih h.2, if_neg h.1, if_pos (List.mem_cons_self _ _), if_pos rfl]
      · rw [countStr, ih h.2, if_neg hx]
        by_cases hmem : x ∈ ts
        · rw [if_pos hmem, if_pos (List.mem_cons_of_mem _ hmem)]
        · have hnot : x ∉ t :: ts := by
            intro hx2
            rcases List.mem_cons.mp hx2 with hEq | hmem2
            · exact hx hEq.symm
            · exact hmem hmem2
          rw [if_neg hmem, if_neg hnot]

/-- Concrete logger with both transports enabled, used as witness input. -/
def c2Logger : Logger := { fileLogger with transports := ["console", "file"] }

/-- Claim C2: with recognized `level` and configured minimum level, a call
with rank below the threshold changes nothing (zero observable output on
any transport), and an admitted call produces exactly one formatted line
per enabled transport: one primary console line and one line entering the
file pipeline. -/
theorem level_admission_per_transport :
    ∀ (l : Logger) (level ts : String) (args : List Arg),
      l.level ∈ levels → level ∈ levels → SinkInv l → l.transports.Nodup →
      ("file" ∈ l.transports → filePathTruthy l = true) →
      (jsIndexOf levels level < jsIndexOf levels l.level → log ts l level args = l) ∧
      (jsIndexOf levels level ≥ jsIndexOf levels l.level →
        formattedCount (log ts l level args).consoleOut =
          formattedCount l.consoleOut + (if "console" ∈ l.transports then 1 else 0) ∧
        (tracked (log ts l level args)).length =
          (tracked l).length + (if "file" ∈ l.transports then 1 else 0)) := by
  intro l lvl ts args hlmem hmem hinv hnodup htr
  constructor
  · intro hlt
    have hs : shouldLog l lvl = false := by
      rw [shouldLog]
      simp only [decide_eq_false_iff_not]
      omega
    simp [log, hs]
  · intro hge
    have hs : shouldLog l lvl = true := by
      rw [shouldLog]
      exact decide_eq_true hge
    have hlog : log ts l lvl args =
        l.transports.foldl
          (logTransport lvl
            (format l.format
              [("timestamp", ts), ("level", lvl),
               ("message", String.intercalate " " (args.map stringifyArg))]) args) l := by
      simp [log, hs]
    obtain ⟨a, b, c⟩ := foldl_logTransport_counts lvl
      (format l.format
        [("timestamp", ts), ("level", lvl),
         ("message", String.intercalate " " (args.map stringifyArg))]) args
      l.transports l hinv htr
    rw [hlog, b, c, countStr_nodup _ _ hnodup, countStr_nodup _ _ hnodup]
    exact ⟨rfl, rfl⟩

theorem level_admission_per_transport_witness :
    (jsIndexOf levels "warn" < jsIndexOf levels c2Logger.level →
        log "TS" c2Logger "warn" [Arg.str "m"] = c2Logger) ∧
    (jsIndexOf levels "warn" ≥ jsIndexOf levels c2Logger.level →
      formattedCount (log "TS" c2Logger "warn" [Arg.str "m"]).consoleOut =
        formattedCount c2Logger.consoleOut +
          (if "console" ∈ c2Logger.transports then 1 else 0) ∧
      (tracked (log "TS" c2Logger "warn" [Arg.str "m"])).length =
        (tracked c2Logger).length + (if "file" ∈ c2Logger.transports then 1 else 0)) :=
  level_admission_per_transport c2Logger "warn" "TS" [Arg.str "m"] (by decide) (by decide)
    (by decide) (by decide) (by decide)

/-- A concrete `Error` stack string for the C7 scenario. -/
def bootStack : String := "Error: boom\n    at Object.anon (/app/index.js:1:1)"

/-- Claim C7: the message field is each argument stringified (plain values
as-is, errors as `name: message` plus newline and stack) joined with a
single space; `.error('ctx', new Error('boom'))` yields a primary console
line whose message field is `ctx Error: boom` followed by the stack, and a
secondary stack-trace notice after the primary line. -/
theorem message_field_construction :
    (∀ (l : Logger) (ts level : String) (args : List Arg),
        l.transports = ["console"] → shouldLog l level = true →
        (log ts l level args).consoleOut = l.consoleOut ++
          consoleBlock level
            (format l.format
              [("timestamp", ts), ("level", level),
               ("message", String.intercalate " " (args.map stringifyArg))]) args)
    ∧ (Logger.error "TS" consoleLogger
          [Arg.str "ctx", Arg.err "Error" "boom" bootStack]).consoleOut =
        [CWrite.formatted "error"
            ("\x1b[31m[TS] error: ctx Error: boom\n" ++ bootStack ++ "\x1b[0m"),
         CWrite.stackLabel "error" "\x1b[31mStack trace:\x1b[0m",
         CWrite.errObject "error" "Error" "boom" bootStack] := by
  constructor
  · intro l ts lvl args htrs hs
    have hlog : log ts l lvl args =
        l.transports.foldl
          (logTransport lvl
            (format l.format
              [("timestamp", ts), ("level", lvl),
               ("message", String.intercalate " " (args.map stringifyArg))]) args) l := by
      simp [log, hs]
    rw [hlog, htrs, List.foldl_cons, List.foldl_nil, logTransport_console]
  · decide

theorem message_field_construction_witness :
    consoleLogger.transports = ["console"] ∧ shouldLog consoleLogger "error" = true ∧
    (log "TS" consoleLogger "error" [Arg.str "hi"]).consoleOut = consoleLogger.consoleOut ++
      consoleBlock "error"
        (format consoleLogger.format
          [("timestamp", "TS"), ("level", "error"),
           ("message", String.intercalate " " ([Arg.str "hi"].map stringifyArg))])
        [Arg.str "hi"] :=
  ⟨rfl, by decide,
   message_field_construction.1 consoleLogger "TS" "error" [Arg.str "hi"] rfl (by decide)⟩

/-- Concrete logger with the file transport enabled but no file path, used
as witness input. -/
def c10Logger : Logger := { consoleLogger with transports := ["console", "file"] }

/-- Claim C10: when `file` is among the transports but `filePath` is null
or empty, every `log` call leaves the whole file pipeline untouched
(nothing enqueued, no drain started, no write, no error) while console
delivery is exactly what it would be with only the console transports. -/
theorem file_transport_skipped_without_path :
    ∀ (l : Logger) (ts level : String) (args : List Arg), filePathTruthy l = false →
      (log ts l level args).logQueue = l.logQueue ∧
      (log ts l level args).isWriting = l.isWriting ∧
      (log ts l level args).drains = l.drains ∧
      (log ts l level args).file = l.file ∧
      (log ts l level args).archived = l.archived ∧
      (log ts l level args).consoleOut =
        (log ts { l with transports := l.transports.filter (fun t => t == "console") }
            level args).consoleOut := by
  intro l ts lvl args hfalse
  by_cases hs : shouldLog l lvl = true
  · have hs2 : shouldLog
        { l with transports := l.transports.filter (fun t => t == "console") } lvl = true := hs
    have hfalse2 : filePathTruthy
        { l with transports := l.transports.filter (fun t => t == "console") } = false := hfalse
    have hlogL : log ts l lvl args =
        l.transports.foldl
          (logTransport lvl
            (format l.format
              [("timestamp", ts), ("level", lvl),
               ("message", String.intercalate " " (args.map stringifyArg))]) args) l := by
      simp [log, hs]
    have hlogR : log ts
          { l with transports := l.transports.filter (fun t => t == "console") } lvl args =
        (l.transports.filter (fun t => t == "console")).foldl
          (logTransport lvl
            (format l.format
              [("timestamp", ts), ("level", lvl),
               ("message", String.intercalate " " (args.map stringifyArg))]) args)
          { l with transports := l.transports.filter (fun t => t == "console") } := by
      simp [log, hs2]
    rw [hlogL, foldl_logTransport_falsy _ _ _ _ _ hfalse]
    refine ⟨rfl, rfl, rfl, rfl, rfl, ?_⟩
    rw [hlogR, foldl_logTransport_falsy _ _ _ _ _ hfalse2]
    show l.consoleOut ++ _ = l.consoleOut ++ _
    rw [countStr_filter_self]
  · have hsf : shouldLog l lvl = false := by
      cases h : shouldLog l lvl
      · rfl
      · exact absurd h hs
    have hsf2 : shouldLog
        { l with transports := l.transports.filter (fun t => t == "console") } lvl = false := hsf
    simp [log, hsf, hsf2]

theorem file_transport_skipped_without_path_witness :
    filePathTruthy c10Logger = false ∧
    (log "TS" c10Logger "info" [Arg.str "hi"]).logQueue = c10Logger.logQueue ∧
    (log "TS" c10Logger "info" [Arg.str "hi"]).isWriting = c10Logger.isWriting ∧
    (log "TS" c10Logger "info" [Arg.str "hi"]).drains = c10Logger.drains ∧
    (log "TS" c10Logger "info" [Arg.str "hi"]).file = c10Logger.file ∧
    (log "TS" c10Logger "info" [Arg.str "hi"]).archived = c10Logger.archived ∧
    (log "TS" c10Logger "info" [Arg.str "hi"]).consoleOut =
      (log "TS"
          { c10Logger with
            transports := c10Logger.transports.filter (fun t => t == "console") }
          "info" [Arg.str "hi"]).consoleOut := by
  have h := file_transport_skipped_without_path c10Logger "TS" "info" [Arg.str "hi"] (by decide)
  exact ⟨by decide, h.1, h.2.1, h.2.2.1, h.2.2.2.1, h.2.2.2.2.1, h.2.2.2.2.2⟩
